import Mathlib

/-!
Verification development for the Dou Dizhu rules engine and AI decision
system (files `shared_types.py`, `doudizhu_game.py`, `ai_player.py`).

The Python code is shallowly embedded: pure functions become Lean
functions over explicit card lists.  Python `float` weights are modelled
as exact rationals (`ℚ`); every comparison we reason about is far from a
rounding tie, and the one genuinely non-finite value used by the source
(`float('inf')` / the initial `float('-inf')` accumulator) is modelled
by a dedicated `Weight` type, resp. by an `Option` accumulator.
Python `set` iteration order is unspecified; wherever the source
iterates a set of card values we fix the ascending order (every fact
proved below is insensitive to that order).  `itertools.combinations`
is modelled by `List.sublistsLen`, which produces the same collection
of subsequences (in a different list order, again irrelevant here).
-/

/-- Suits, from `shared_types.Suit`.  The glyph code points (used by the
sort key `c.suit.value` in `Player.sort_cards` / `_play_smallest_card`)
are recorded by `glyph`. -/
inductive Suit where
  | SPADE | HEART | DIAMOND | CLUB
  deriving DecidableEq, Fintype

/-- Unicode code point of the suit symbol string, the value Python
compares when sorting by `c.suit.value`. -/
def Suit.glyph : Suit → Nat
  | .SPADE => 9824
  | .HEART => 9829
  | .DIAMOND => 9830
  | .CLUB => 9827

/-- Card values, from `shared_types.CardValue`. -/
inductive CardValue where
  | THREE | FOUR | FIVE | SIX | SEVEN | EIGHT | NINE | TEN
  | JACK | QUEEN | KING | ACE | TWO | SMALL_JOKER | BIG_JOKER
  deriving DecidableEq, Fintype

/-- The numeric `.value` of a `CardValue` enumerant. -/
def CardValue.toNat : CardValue → Nat
  | .THREE => 3 | .FOUR => 4 | .FIVE => 5 | .SIX => 6 | .SEVEN => 7
  | .EIGHT => 8 | .NINE => 9 | .TEN => 10 | .JACK => 11 | .QUEEN => 12
  | .KING => 13 | .ACE => 14 | .TWO => 15 | .SMALL_JOKER => 16 | .BIG_JOKER => 17

/-- All card values in ascending numeric order.  Python's
`sorted(set_of_values, key=lambda v: v.value)` over any set of distinct
enumerants is a filter of this list. -/
def CardValue.all : List CardValue :=
  [.THREE, .FOUR, .FIVE, .SIX, .SEVEN, .EIGHT, .NINE, .TEN,
   .JACK, .QUEEN, .KING, .ACE, .TWO, .SMALL_JOKER, .BIG_JOKER]

/-- Play shapes, from `shared_types.PlayType`; the three-of-a-kind
member (Python enum name with suffix 3) is called `TRIPLE` here. -/
inductive PlayType where
  | SINGLE | PAIR | TRIPLE | TRIO_SINGLE | TRIO_PAIR | STRAIGHT
  | PAIR_STRAIGHT | PLANE | PLANE_SINGLE | PLANE_PAIR | FOUR_WITH_TWO
  | BOMB | ROCKET
  deriving DecidableEq, Fintype

/-- A card, from `shared_types.Card`: jokers carry no suit.  Equality is
componentwise, as in `Card.__eq__`. -/
structure Card where
  suit : Option Suit
  value : CardValue
  deriving DecidableEq

/-- The list of values of a card list (`values = [c.value for c in cards]`). -/
def vals (cards : List Card) : List CardValue := cards.map Card.value

/-- Multiplicity of a value in a card list (`Counter(values)[v]`). -/
def countV (cards : List Card) (v : CardValue) : Nat := (vals cards).count v

/-- The distinct values present in a card list, in ascending order
(`sorted(set(values), key=lambda v: v.value)`; also the key set of
`Counter(values)` up to order). -/
def presentVals (cards : List Card) : List CardValue :=
  CardValue.all.filter (fun v => 0 < countV cards v)

/-- Python's `n in counts.values()`. -/
def hasExactCount (cards : List Card) (n : Nat) : Bool :=
  (presentVals cards).any (fun v => countV cards v = n)

/-- Python's `[k for k, cnt in counts.items() if cnt == n][0]`:
`Counter` iterates keys in first-occurrence order of the value list, so
the chosen key is the first value in the card list whose multiplicity
is `n` (default `THREE` is never reached under the guards that use this). -/
def firstValWithCountD (cards : List Card) (n : Nat) : CardValue :=
  ((vals cards).find? (fun v => countV cards v = n)).getD CardValue.THREE

/-- First value of a card list (`values[0]`); default unreachable under
the nonempty guards of its call sites. -/
def headValD (cards : List Card) : CardValue := (vals cards).headD CardValue.THREE

/-- Python `max(values, key=lambda v: v.value)` (first maximum). -/
def maxValD : List CardValue → CardValue
  | [] => CardValue.THREE
  | v :: rest => rest.foldl (fun a b => if a.toNat < b.toNat then b else a) v

/-- Helper for `all(run[i].value == run[0].value + i for i in ...)`:
the values are consecutive starting from the given point. -/
def consecFrom : Nat → List CardValue → Bool
  | _, [] => true
  | n, v :: rest => (v.toNat = n) && consecFrom (n + 1) rest

/-- A list of values is a consecutive run (`run[i] = run[0] + i`). -/
def isConsecRun : List CardValue → Bool
  | [] => true
  | v :: rest => consecFrom v.toNat (v :: rest)

/-- All `(run_len, start)` loop pairs of the nested loops
`for run_len in range(lo, n + 1): for start in range(0, n - run_len + 1)`,
in loop order. -/
def runCandidates (n lo : Nat) : List (Nat × Nat) :=
  (List.range' lo (n + 1 - lo)).flatMap
    (fun rl => (List.range (n - rl + 1)).map (fun st => (rl, st)))

/-- The four-with-two block of `DoudizhuGame.classify_cards`
(lines 679-691): a value of multiplicity 4 plus 1+1 on 6 cards or 2+2 on
8 cards. -/
def fourStage (cards : List Card) : Option (PlayType × Nat) :=
  match (vals cards).find? (fun v => countV cards v = 4) with
  | none => none
  | some f =>
    let others := (presentVals cards).filter (fun v => v ≠ f)
    if cards.length = 6 ∧ others.length = 2 ∧ others.all (fun v => countV cards v = 1) then
      some (PlayType.FOUR_WITH_TWO, f.toNat)
    else if cards.length = 8 ∧ others.length = 2 ∧ others.all (fun v => countV cards v = 2) then
      some (PlayType.FOUR_WITH_TWO, f.toNat)
    else none

/-- The trio block of `DoudizhuGame.classify_cards` (lines 693-704):
trio plus one attachment (length 4), or trio plus pair / two singles
(length 5). -/
def trioStage (cards : List Card) : Option (PlayType × Nat) :=
  match (vals cards).find? (fun v => countV cards v = 3) with
  | none => none
  | some t =>
    if cards.length = 4 then some (PlayType.TRIO_SINGLE, t.toNat)
    else if cards.length = 5 then
      let os := (presentVals cards).filter (fun v => v ≠ t)
      if os.map (countV cards) = [2] then some (PlayType.TRIO_PAIR, t.toNat)
      else if os.map (countV cards) = [1, 1] then some (PlayType.TRIO_SINGLE, t.toNat)
      else none
    else none

/-- The pair-straight block of `DoudizhuGame.classify_cards`
(lines 706-718): values with multiplicity ≥ 2 below TWO, searched for a
consecutive window whose doubled length is the card count. -/
def psStage (cards : List Card) : Option (PlayType × Nat) :=
  let pvs := CardValue.all.filter (fun v => 2 ≤ countV cards v ∧ v.toNat < 15)
  (runCandidates pvs.length 3).findSome? (fun p =>
    let run := (pvs.drop p.2).take p.1
    if isConsecRun run ∧ cards.length = p.1 * 2 then
      some (PlayType.PAIR_STRAIGHT, (run.getLastD CardValue.THREE).toNat)
    else none)

/-- The straight block of `DoudizhuGame.classify_cards` (lines 720-724). -/
def straightStage (cards : List Card) : Option (PlayType × Nat) :=
  let svs := (presentVals cards).filter (fun v => v.toNat < 15)
  if 5 ≤ svs.length ∧ cards.length = svs.length ∧ isConsecRun svs then
    some (PlayType.STRAIGHT, (svs.getLastD CardValue.THREE).toNat)
  else none

/-- The plane block of `DoudizhuGame.classify_cards` (lines 726-747):
values with multiplicity ≥ 3 below TWO, searched for a consecutive
window; pure plane, plane with singles, or plane with pairs by card
count. -/
def planeStage (cards : List Card) : Option (PlayType × Nat) :=
  let tvs := CardValue.all.filter (fun v => 3 ≤ countV cards v ∧ v.toNat < 15)
  if 2 ≤ tvs.length then
    (runCandidates tvs.length 2).findSome? (fun p =>
      let run := (tvs.drop p.2).take p.1
      if isConsecRun run then
        if cards.length = p.1 * 3 then
          some (PlayType.PLANE, (run.getLastD CardValue.THREE).toNat)
        else if cards.length = p.1 * 3 + p.1 then
          some (PlayType.PLANE_SINGLE, (run.getLastD CardValue.THREE).toNat)
        else if cards.length = p.1 * 3 + p.1 * 2 ∧
            p.1 ≤ ((presentVals cards).filter
              (fun v => v ∉ run ∧ 2 ≤ countV cards v)).length then
          some (PlayType.PLANE_PAIR, (run.getLastD CardValue.THREE).toNat)
        else none
      else none)
  else none

/-- The fall-through tail of `DoudizhuGame.classify_cards` after the
fixed-arity branches. -/
def classifyRest (cards : List Card) : Option (PlayType × Nat) :=
  match fourStage cards with
  | some r => some r
  | none =>
    match trioStage cards with
    | some r => some r
    | none =>
      match psStage cards with
      | some r => some r
      | none =>
        match straightStage cards with
        | some r => some r
        | none => planeStage cards

/-- `DoudizhuGame.classify_cards` (lines 646-749): shape recognition,
returning the shape and its comparison key (`v.value`), or `none` for
`(None, None)`. -/
def classifyCards (cards : List Card) : Option (PlayType × Nat) :=
  if cards.length = 0 then none
  else if cards.length = 2 ∧ CardValue.SMALL_JOKER ∈ vals cards ∧
      CardValue.BIG_JOKER ∈ vals cards then
    some (PlayType.ROCKET, CardValue.BIG_JOKER.toNat)
  else if cards.length = 1 then some (PlayType.SINGLE, (headValD cards).toNat)
  else if cards.length = 2 ∧ (presentVals cards).length = 1 then
    some (PlayType.PAIR, (headValD cards).toNat)
  else if cards.length = 3 ∧ hasExactCount cards 3 then
    some (PlayType.TRIPLE, (firstValWithCountD cards 3).toNat)
  else if cards.length = 4 ∧ hasExactCount cards 4 then
    some (PlayType.BOMB, (firstValWithCountD cards 4).toNat)
  else classifyRest cards

/-- `DoudizhuGame._compare_play` (lines 751-800): 1 = the first hand
wins, -1 = it loses, 0 = invalid comparison. -/
def comparePlay (cards lastCards : List Card) : Int :=
  if cards.length = 0 then -1
  else if lastCards.length = 0 then 1
  else
    match classifyCards cards, classifyCards lastCards with
    | some (t1, k1), some (t2, k2) =>
      if t1 = t2 then
        if t1 = PlayType.STRAIGHT ∨ t1 = PlayType.PAIR_STRAIGHT ∨ t1 = PlayType.PLANE ∨
            t1 = PlayType.PLANE_PAIR ∨ t1 = PlayType.PLANE_SINGLE then
          if cards.length ≠ lastCards.length then 0
          else if k2 < k1 then 1 else if k1 < k2 then -1 else 0
        else if t1 = PlayType.FOUR_WITH_TWO then
          if cards.length ≠ lastCards.length then 0
          else if k2 < k1 then 1 else if k1 < k2 then -1 else 0
        else
          if cards.length ≠ lastCards.length then 0
          else if k2 < k1 then 1 else if k1 < k2 then -1 else 0
      else if t1 = PlayType.ROCKET then 1
      else if t2 = PlayType.ROCKET then -1
      else if t1 = PlayType.BOMB ∧ t2 ≠ PlayType.ROCKET then 1
      else if t2 = PlayType.BOMB ∧ t1 ≠ PlayType.ROCKET then -1
      else 0
    | _, _ => 0

/-- `DoudizhuAI._analyze_play` (lines 966-1049): the AI's own shape
analysis.  Unlike `classify_cards` it is total — its final line reports
`SINGLE` with the maximum value for anything unmatched. -/
def analyzePlay (cards : List Card) : PlayType × CardValue :=
  if cards.length = 0 then (PlayType.SINGLE, CardValue.THREE)
  else if cards.length = 1 then (PlayType.SINGLE, headValD cards)
  else if cards.length = 2 ∧ (presentVals cards).length = 1 then
    (PlayType.PAIR, headValD cards)
  else if cards.length = 2 ∧ CardValue.SMALL_JOKER ∈ vals cards ∧
      CardValue.BIG_JOKER ∈ vals cards then
    (PlayType.ROCKET, CardValue.BIG_JOKER)
  else if cards.length = 4 ∧ hasExactCount cards 4 then
    (PlayType.BOMB, maxValD (vals cards))
  else
    analyzeTail cards
where
  /-- Everything after the bomb test of `_analyze_play`, in source order:
  trio shapes, pair straight, straight, planes, the six-card four-with-two
  test, then the `SINGLE`/max fallback. -/
  analyzeTail (cards : List Card) : PlayType × CardValue :=
    match analyzeTrioBlock cards with
    | some r => r
    | none =>
      match analyzePSBlock cards with
      | some r => r
      | none =>
        match analyzeStraightBlock cards with
        | some r => r
        | none =>
          match analyzePlaneBlock cards with
          | some r => r
          | none =>
            if cards.length = 6 ∧ hasExactCount cards 4 then
              (PlayType.FOUR_WITH_TWO, maxValD (vals cards))
            else (PlayType.SINGLE, maxValD (vals cards))
  /-- The `3 in value_counts.values()` block of `_analyze_play`
  (lines 989-1004).  The guard asks for a multiplicity of exactly 3, but
  `trio_value` is then the first value (in first-occurrence order) with
  multiplicity ≥ 3. -/
  analyzeTrioBlock (cards : List Card) : Option (PlayType × CardValue) :=
    match if hasExactCount cards 3 then (vals cards).find? (fun v => 3 ≤ countV cards v)
      else none with
    | none => none
    | some t =>
      if cards.length = 3 then some (PlayType.TRIPLE, t)
      else if cards.length = 4 ∧ countV cards t + 1 = cards.length then
        some (PlayType.TRIO_SINGLE, t)
      else if cards.length = 5 then
        let os := (presentVals cards).filter (fun v => v ≠ t)
        if os.map (countV cards) = [2] then some (PlayType.TRIO_PAIR, t)
        else if os.map (countV cards) = [1, 1] then some (PlayType.TRIO_SINGLE, t)
        else none
      else none
  /-- The pair-straight block of `_analyze_play` (lines 1006-1013).
  Note: no filter against TWO or the jokers, and the whole sorted list of
  pair values must be consecutive (no window search). -/
  analyzePSBlock (cards : List Card) : Option (PlayType × CardValue) :=
    if hasExactCount cards 2 ∧ 6 ≤ cards.length then
      let pvs := CardValue.all.filter (fun v => 2 ≤ countV cards v)
      if isConsecRun pvs ∧ 3 ≤ pvs.length ∧ pvs.length * 2 = cards.length then
        some (PlayType.PAIR_STRAIGHT, pvs.getLastD CardValue.THREE)
      else none
    else none
  /-- The straight block of `_analyze_play` (lines 1015-1021).  Again no
  filter against TWO or the jokers. -/
  analyzeStraightBlock (cards : List Card) : Option (PlayType × CardValue) :=
    let svs := CardValue.all.filter (fun v => countV cards v = 1)
    if 5 ≤ svs.length ∧ svs.length = cards.length ∧ isConsecRun svs then
      some (PlayType.STRAIGHT, svs.getLastD CardValue.THREE)
    else none
  /-- The plane block of `_analyze_play` (lines 1023-1044): guarded like
  the trio block by an exact multiplicity of 3; all values of
  multiplicity ≥ 3 must be consecutive; wings are checked only by count. -/
  analyzePlaneBlock (cards : List Card) : Option (PlayType × CardValue) :=
    if hasExactCount cards 3 then
      let tvs := CardValue.all.filter (fun v => 3 ≤ countV cards v)
      if isConsecRun tvs then
        let wingCount : Int := (cards.length : Int) - tvs.length * 3
        if wingCount = 0 then some (PlayType.PLANE, tvs.getLastD CardValue.THREE)
        else if wingCount = tvs.length then
          let wvs := CardValue.all.filter (fun v => countV cards v = 1)
          if (wvs.length : Int) = wingCount then
            some (PlayType.PLANE_SINGLE, tvs.getLastD CardValue.THREE)
          else none
        else if wingCount = tvs.length * 2 then
          let pws := CardValue.all.filter (fun v => 2 ≤ countV cards v)
          if pws.length = tvs.length then some (PlayType.PLANE_PAIR, tvs.getLastD CardValue.THREE)
          else none
        else none
      else none
    else none

/-- `DoudizhuAI.is_valid_play` (lines 935-963). -/
def isValidPlay (cards tableCards : List Card) : Bool :=
  if cards.length = 0 then true
  else if tableCards.length = 0 then true
  else
    let pt := analyzePlay cards
    let tt := analyzePlay tableCards
    if pt.1 = PlayType.ROCKET then true
    else if tt.1 = PlayType.ROCKET then false
    else if pt.1 = PlayType.BOMB then
      if tt.1 = PlayType.BOMB then decide (tt.2.toNat < pt.2.toNat) else true
    else if pt.1 ≠ tt.1 then false
    else if cards.length ≠ tableCards.length then false
    else decide (tt.2.toNat < pt.2.toNat)

/-- Placeholder card for `Option.getD` on searches whose guards make the
`none` case unreachable. -/
def dummyCard : Card := ⟨none, CardValue.THREE⟩

/-- Python `next(c for c in cards if c.value == v)`: the first card of
the list carrying the value. -/
def firstCardWithD (cards : List Card) (v : CardValue) : Card :=
  (cards.find? (fun c => c.value = v)).getD dummyCard

/-- `_get_repeated_values(cards, n)` (`ai_player.py` lines 810-814,
`doudizhu_game.py` lines 165-168): the values of multiplicity ≥ n.
Python returns a `set`; we fix the ascending order (callers either sort
it explicitly or use it order-insensitively for the facts proved here). -/
def getRepeatedValues (cards : List Card) (n : Nat) : List CardValue :=
  CardValue.all.filter (fun v => n ≤ countV cards v)

/-- `_get_straights` (`ai_player.py` lines 816-851 and the identical
`doudizhu_game.py` lines 170-206): all windows of ≥ 5 consecutive
distinct below-TWO values, realised by the first card of each value. -/
def getStraights (cards : List Card) : List (List Card) :=
  let sortedCards := cards.filter (fun c => c.value.toNat < 15)
  if sortedCards.length < 5 then []
  else
    let uv := CardValue.all.filter (fun v => 0 < countV cards v ∧ v.toNat < 15)
    (runCandidates uv.length 5).filterMap (fun p =>
      let run := (uv.drop p.2).take p.1
      if isConsecRun run then some (run.map (firstCardWithD cards)) else none)

/-- `_get_pair_straights` (`ai_player.py` lines 853-874,
`doudizhu_game.py` lines 208-228): all windows of ≥ 3 consecutive
pair-capable values, realised by the first two cards of each value.
Note: no filter against TWO or the jokers here. -/
def getPairStraights (cards : List Card) : List (List Card) :=
  let pv := getRepeatedValues cards 2
  if pv.length < 3 then []
  else
    (runCandidates pv.length 3).filterMap (fun p =>
      let run := (pv.drop p.2).take p.1
      if isConsecRun run then
        some (run.flatMap (fun v => (cards.filter (fun c => c.value = v)).take 2))
      else none)

/-- `_get_planes` (`ai_player.py` lines 876-897, `doudizhu_game.py`
lines 230-250): all windows of ≥ 2 consecutive trio-capable values. -/
def getPlanes (cards : List Card) : List (List Card) :=
  let tv := getRepeatedValues cards 3
  if tv.length < 2 then []
  else
    (runCandidates tv.length 2).filterMap (fun p =>
      let run := (tv.drop p.2).take p.1
      if isConsecRun run then
        some (run.flatMap (fun v => (cards.filter (fun c => c.value = v)).take 3))
      else none)

/-- `_get_plane_with_wings` (`ai_player.py` lines 899-932,
`doudizhu_game.py` lines 252-285).  Single wings range over every
size-`m` combination of the remaining cards (`itertools.combinations`,
modelled by `List.sublistsLen`); pair wings range only over the
contiguous windows `pair_values[i : i + m]` of the sorted remaining
pair-capable values. -/
def getPlaneWithWings (cards : List Card) : List (List Card) :=
  let tv := getRepeatedValues cards 3
  (runCandidates tv.length 2).flatMap (fun p =>
    let run := (tv.drop p.2).take p.1
    if isConsecRun run then
      let trioCards := run.flatMap (fun v => (cards.filter (fun c => c.value = v)).take 3)
      let remaining := cards.filter (fun c => c.value ∉ run)
      let singleMoves :=
        if p.1 ≤ remaining.length then
          (List.sublistsLen p.1 remaining).map (fun s => trioCards ++ s)
        else []
      let pairVals := (getRepeatedValues cards 2).filter (fun v => v ∉ run)
      let pairMoves :=
        if p.1 ≤ pairVals.length ∧ p.1 * 2 ≤ remaining.length then
          (List.range (pairVals.length - p.1 + 1)).map (fun i =>
            trioCards ++ ((pairVals.drop i).take p.1).flatMap
              (fun v => (cards.filter (fun c => c.value = v)).take 2))
        else []
      singleMoves ++ pairMoves
    else [])

/-- `get_all_playable_moves` (`ai_player.py` lines 754-808, and the
identical `Player.get_all_playable_moves` in `doudizhu_game.py`
lines 110-163): pass, singles, pairs, trios, quads, trio attachments,
straights, pair straights, planes, winged planes, and the rocket. -/
def getAllPlayableMoves (cards : List Card) : List (List Card) :=
  if cards.length = 0 then [[]]
  else
    [[]] ++ cards.map (fun c => [c])
    ++ (getRepeatedValues cards 2).filterMap (fun v =>
        let cl := cards.filter (fun c => c.value = v)
        if 2 ≤ cl.length then some (cl.take 2) else none)
    ++ (getRepeatedValues cards 3).filterMap (fun v =>
        let cl := cards.filter (fun c => c.value = v)
        if 3 ≤ cl.length then some (cl.take 3) else none)
    ++ (getRepeatedValues cards 4).filterMap (fun v =>
        let cl := cards.filter (fun c => c.value = v)
        if cl.length = 4 then some cl else none)
    ++ (getRepeatedValues cards 3).flatMap (fun v =>
        let trioCards := cards.filter (fun c => c.value = v)
        if 3 ≤ trioCards.length then
          let remaining := cards.filter (fun c => c.value ≠ v)
          remaining.map (fun s => trioCards.take 3 ++ [s])
          ++ ((getRepeatedValues cards 2).filter (fun pv => pv ≠ v)).map (fun pv =>
              trioCards.take 3 ++ (cards.filter (fun c => c.value = pv)).take 2)
        else [])
    ++ getStraights cards ++ getPairStraights cards ++ getPlanes cards
    ++ getPlaneWithWings cards
    ++ (if CardValue.SMALL_JOKER ∈ vals cards ∧ CardValue.BIG_JOKER ∈ vals cards then
          [[firstCardWithD cards CardValue.SMALL_JOKER, firstCardWithD cards CardValue.BIG_JOKER]]
        else [])

/-- Seat positions, the strings produced by `_get_position_info`. -/
inductive Position where
  | landlord | landlordUp | landlordDown | partner | unknown
  deriving DecidableEq

/-- A Python float as used for AI scoring totals: a finite value
(modelled as an exact rational) or `float('inf')`, which
`_get_initiative_priority_weight` produces. -/
inductive Weight where
  | fin (q : ℚ)
  | inf
  deriving DecidableEq

/-- Adding a finite float to a possibly infinite one. -/
def Weight.addQ : Weight → ℚ → Weight
  | .fin q, r => .fin (q + r)
  | .inf, _ => .inf

/-- Python's `w > b` on floats of this shape (`inf > inf` is false). -/
def Weight.gtB : Weight → Weight → Bool
  | .fin q, .fin r => decide (r < q)
  | .fin _, .inf => false
  | .inf, .fin _ => true
  | .inf, .inf => false

/-- `_calculate_base_weight` (`ai_player.py` lines 106-128), W₁.  All 13
play types appear in the weights dict, so the `.get` default 1.0 is
unreachable.  `//` is Python floor division on nonnegative ints, i.e.
`Nat` division. -/
def calculateBaseWeight (t : PlayType) (cards : List Card) : ℚ :=
  let maxPoint : ℚ := ((maxValD (vals cards)).toNat : ℚ)
  match t with
  | .SINGLE => 0.5 + (maxPoint - 3) * 0.1
  | .PAIR => 1.0 + (maxPoint - 3) * 0.15
  | .TRIPLE => 2.0
  | .TRIO_SINGLE => 1.5 + (maxPoint - 3) * 0.15
  | .TRIO_PAIR => 2.0 + (maxPoint - 3) * 0.15
  | .STRAIGHT => 3.0 + ((cards.length : ℚ) - 5) * 0.5
  | .PAIR_STRAIGHT => 3.5 + (((cards.length / 2 : ℕ) : ℚ) - 3) * 1.0
  | .PLANE => 4.0 + (((cards.length / 3 : ℕ) : ℚ) - 2) * 1.5
  | .PLANE_SINGLE => 3.5 + (((cards.length / 4 : ℕ) : ℚ) - 2) * 1.2
  | .PLANE_PAIR => 4.0 + (((cards.length / 5 : ℕ) : ℚ) - 2) * 1.3
  | .FOUR_WITH_TWO => 4.5
  | .BOMB => 8.0
  | .ROCKET => 10.0

/-- `_count_combinations` (`ai_player.py` lines 148-216).  The local
`combinations` accumulator, `pair_count`, `single_count` and the
trio loop (lines 155-189) are computed but never returned or mutated
into the result, so they are omitted; the function returns 1 for a
hand whose distinct below-TWO values chain into a straight, the number
of pair values for a pair-straight chain, and otherwise the number of
distinct values present. -/
def countCombinations (cards : List Card) : Nat :=
  if cards.length = 0 then 0
  else
    let stVals := CardValue.all.filter (fun v => 0 < countV cards v ∧ v.toNat < 15)
    if 5 ≤ cards.length ∧ isConsecRun stVals ∧ 5 ≤ stVals.length then 1
    else
      let pvs := CardValue.all.filter (fun v => 2 ≤ countV cards v ∧ v.toNat < 15)
      if 3 ≤ pvs.length ∧ isConsecRun pvs then pvs.length
      else (presentVals cards).length

/-- `_calculate_hand_optimization_weight` (lines 218-224), W₂.  The
difference of combination counts is a Python int, possibly negative. -/
def calculateHandOptimizationWeight (cards move : List Card) (current : Nat) : ℚ :=
  let remaining := cards.filter (fun c => c ∉ move)
  ((current : ℚ) - (countCombinations remaining : ℚ)) * 2.0

/-- `_calculate_threat_weight` (lines 226-230), W₃. -/
def calculateThreatWeight (remainingCards : Nat) (isLandlord : Bool) : ℚ :=
  10.0 / ((remainingCards : ℚ) + 1) * (if isLandlord then 1.2 else 0.8)

/-- `_calculate_control_weight_v2` (lines 430-468), W₄.  The final
`remaining_after_move` binding of the source is always the empty list
and unused; the branch only adds 1.0. -/
def calculateControlWeightV2 (move tableCards : List Card) (opponentCount : Nat)
    (seen : Finset CardValue) : ℚ :=
  if tableCards.length = 0 then 0
  else
    let pt := analyzePlay move
    ((if (pt.1 = PlayType.STRAIGHT ∨ pt.1 = PlayType.PAIR_STRAIGHT) ∧ 6 ≤ move.length
        then (3.0 : ℚ) else 0)
     + (if pt.1 = PlayType.BOMB ∧ 2 ≤ opponentCount then (2.0 : ℚ) else 0)
     + (if pt.1 = PlayType.TRIPLE ∧ move.length = 3 ∧
          2 ≤ (seen.filter (fun s =>
            (pt.2.toNat : Int) - s.toNat ≤ 2 ∧ 0 < (pt.2.toNat : Int) - s.toNat)).card
        then (2.0 : ℚ) else 0)
     + (if (pt.1 = PlayType.STRAIGHT ∨ pt.1 = PlayType.PLANE) ∧ 6 ≤ move.length
        then (1.0 : ℚ) else 0))

/-- Python `values[0] == values[1]` on a two-card move. -/
def valueEq01 : List Card → Bool
  | a :: b :: _ => a.value = b.value
  | _ => false

/-- `_calculate_position_weight` (lines 252-279), W₅. -/
def calculatePositionWeight (move : List Card) (isLandlord : Bool)
    (position : Position) : ℚ :=
  let maxV := maxValD (vals move)
  if isLandlord then
    if move.length = 1 ∧ maxV.toNat ≤ 10 then 1.5
    else if move.length = 2 ∧ valueEq01 move ∧ maxV.toNat ≤ 8 then 1.0
    else if maxV = CardValue.TWO ∨ maxV = CardValue.SMALL_JOKER ∨
        maxV = CardValue.BIG_JOKER then 0.5
    else 0
  else
    if position = Position.landlordUp then
      if 11 ≤ maxV.toNat then 2.0 else 0
    else if position = Position.landlordDown then
      if maxV.toNat ≤ 10 then 1.5 else 0
    else 0

/-- `_can_finish_in_one_round` (lines 414-428). -/
def canFinishInOneRound (playerCards : List Card) : Bool :=
  if playerCards.length = 0 then false
  else if playerCards.length = 1 then true
  else (getAllPlayableMoves playerCards).any (fun m => m.length = playerCards.length)

/-- `_get_initiative_priority_weight` (lines 470-516).  Note that the
`float('inf')` branch tests `_can_finish_in_one_round(player_cards)` —
the whole hand — not the move under scoring, so when the hand can be
emptied in one combination every candidate receives infinite priority. -/
def getInitiativePriorityWeight (move playerCards : List Card)
    (isLandlord : Bool) : Weight :=
  if canFinishInOneRound playerCards then .inf
  else
    let pt := analyzePlay move
    let remaining := playerCards.filter (fun c => c ∉ move)
    .fin ((if pt.1 = PlayType.SINGLE ∧ pt.2.toNat ≤ 10 then (1.2 : ℚ) else 0)
      + (if pt.1 = PlayType.PAIR ∧ pt.2.toNat ≤ 8 then (1.5 : ℚ) else 0)
      + (if pt.1 = PlayType.TRIPLE then (1.8 : ℚ) else 0)
      + (if pt.1 = PlayType.TRIO_SINGLE ∨ pt.1 = PlayType.TRIO_PAIR then (2.0 : ℚ) else 0)
      + (if pt.1 = PlayType.STRAIGHT ∨ pt.1 = PlayType.PAIR_STRAIGHT ∨
          pt.1 = PlayType.PLANE then (3.0 : ℚ) else 0)
      + (if pt.1 = PlayType.BOMB then (4.0 : ℚ) else 0)
      + (if pt.1 = PlayType.ROCKET then (5.0 : ℚ) else 0)
      + (if remaining.length ≤ 5 then (2.0 : ℚ) else 0))

/-- The sort key of `_play_smallest_card` / `Player.sort_cards`:
`(c.value.value, c.suit.value if c.suit else 0)`, where `c.suit.value`
is the suit glyph string (compared by code point). -/
def sortKeySnd (c : Card) : Nat :=
  match c.suit with
  | some s => s.glyph
  | none => 0

/-- `_play_smallest_card` (lines 1051-1057): the first card of the hand
under the stable sort by `(value, suit key)`. -/
def playSmallestCard : List Card → List Card
  | [] => []
  | c :: rest =>
    [rest.foldl (fun b x =>
      if x.value.toNat < b.value.toNat ∨
          (x.value.toNat = b.value.toNat ∧ sortKeySnd x < sortKeySnd b) then x else b) c]

/-- The fields of the `game_state` dict read by `_should_use_bomb`
(`last_player_id` is read but unused). -/
structure GameState where
  opponentPlayedBomb : Bool

/-- `_should_use_bomb` (lines 320-368).  `bomb_count` and
`my_other_bombs` classify each remaining card singly via
`_analyze_play([c])`, which yields `SINGLE` for every card, so both are
always empty — modelled verbatim. -/
def shouldUseBomb (move playerCards : List Card) (isLandlord : Bool)
    (opponentCount : Nat) (gameState : Option GameState) : Bool :=
  if move.length = 0 then false
  else
    let pt := analyzePlay move
    if pt.1 ≠ PlayType.BOMB ∧ pt.1 ≠ PlayType.ROCKET then false
    else
      let remaining := playerCards.filter (fun c => c ∉ move)
      if remaining.length = 0 then true
      else if isLandlord ∧ remaining.length ≤ 3 then true
      else if isLandlord ∧
          1 ≤ (remaining.filter (fun c => (analyzePlay [c]).1 = PlayType.BOMB)).length ∧
          remaining.length ≤ 5 then true
      else if ¬isLandlord ∧ remaining.length ≤ 2 then true
      else
        match gameState with
        | none => false
        | some gs =>
          if gs.opponentPlayedBomb ∧ pt.1 = PlayType.BOMB then
            if pt.1 = PlayType.ROCKET then true
            else
              match remaining.filter (fun c => (analyzePlay [c]).1 = PlayType.BOMB) with
              | [] => false
              | b :: _ =>
                if pt.2.toNat < (analyzePlay [b]).2.toNat then true else false
          else false

/-- `_calculate_endgame_weight` (lines 281-318): endgame scoring
`base × 2 + finish-probability × 5`, with the finish probability scaled
by 0.8 for a non-landlord. -/
def calculateEndgameWeight (move playerCards : List Card) (isLandlord : Bool) : ℚ :=
  if 5 < playerCards.length then 0
  else
    let pt := analyzePlay move
    let baseW := calculateBaseWeight pt.1 move * 2
    let remaining := playerCards.filter (fun c => c ∉ move)
    let maxV := maxValD (vals remaining)
    let finishProb : ℚ :=
      if remaining.length = 0 then 1
      else if remaining.length ≤ 2 then
        if maxV = CardValue.TWO ∨ maxV = CardValue.SMALL_JOKER ∨
            maxV = CardValue.BIG_JOKER then 0.9
        else if 11 ≤ maxV.toNat then 0.7
        else 0.5
      else
        if maxV = CardValue.TWO ∨ maxV = CardValue.SMALL_JOKER ∨
            maxV = CardValue.BIG_JOKER then 0.6
        else if 11 ≤ maxV.toNat then 0.4
        else 0.2
    let finishProb := if isLandlord then finishProb else finishProb * 0.8
    baseW + finishProb * 5

/-- `_choose_endgame_move` (lines 715-752): rocket first, then a bomb
passing the gate, then the argmax of the endgame weight (first-found on
ties), falling back to the smallest single. -/
def chooseEndgameMove (moves : List (List Card)) (playerCards : List Card)
    (isLandlord : Bool) : List Card :=
  if moves.length = 0 then []
  else
    match moves.find? (fun m => (analyzePlay m).1 = PlayType.ROCKET) with
    | some m => m
    | none =>
      match moves.find? (fun m => (analyzePlay m).1 = PlayType.BOMB &&
          shouldUseBomb m playerCards isLandlord 2 none) with
      | some m => m
      | none =>
        let best := moves.foldl (fun best m =>
          if m.length = 0 then best
          else
            let w := calculateEndgameWeight m playerCards isLandlord
            match best with
            | none => some (m, w)
            | some (bm, bw) => if bw < w then some (m, w) else some (bm, bw)) none
        match best with
        | none => playSmallestCard playerCards
        | some (bm, _) => bm

/-- `_choose_initiative_move` (lines 518-578): single-card hands play the
smallest card; then rocket, then a bomb passing the gate (with opponent
count 2); otherwise the argmax of `W₁+W₂+W₃+W₄+W₅+priority` over the
nonempty moves, starting from `best_weight = -inf` (modelled by the
`Option` accumulator) and first-found on ties.  The chosen move is
returned after the always-true validity check against an empty table. -/
def chooseInitiativeMove (moves : List (List Card)) (playerCards : List Card)
    (isLandlord : Bool) (position : Position) (seen : Finset CardValue) : List Card :=
  if moves.length = 0 then []
  else if playerCards.length = 1 then playSmallestCard playerCards
  else
    match moves.find? (fun m => (analyzePlay m).1 = PlayType.ROCKET) with
    | some m => m
    | none =>
      match moves.find? (fun m => (analyzePlay m).1 = PlayType.BOMB &&
          shouldUseBomb m playerCards isLandlord 2 none) with
      | some m => m
      | none =>
        let current := countCombinations playerCards
        let best := moves.foldl (fun best m =>
          if m.length = 0 then best
          else
            let pt := analyzePlay m
            let w1 := calculateBaseWeight pt.1 m
            let w2 := calculateHandOptimizationWeight playerCards m current
            let w3 := calculateThreatWeight (playerCards.length - m.length) isLandlord
            let w4 := calculateControlWeightV2 m [] 2 seen
            let w5 := calculatePositionWeight m isLandlord position
            let total := (getInitiativePriorityWeight m playerCards isLandlord).addQ
              (w1 + w2 + w3 + w4 + w5)
            match best with
            | none => some (m, total)
            | some (bm, bw) => if total.gtB bw then some (m, total) else some (bm, bw)) none
        match best with
        | none => playSmallestCard playerCards
        | some (bm, _) => if isValidPlay bm [] then bm else []

/-- `record_played_cards` (lines 23-27): the process-wide seen-card
accumulator `_seen_cards` is a Python `set` of `CardValue`; recording
inserts each played card's value. -/
def recordPlayedCards (seen : Finset CardValue) (cards : List Card) : Finset CardValue :=
  cards.foldl (fun acc c => insert c.value acc) seen

/-- A spade of the given value. -/
def cS (v : CardValue) : Card := ⟨some Suit.SPADE, v⟩

/-- A heart of the given value. -/
def cH (v : CardValue) : Card := ⟨some Suit.HEART, v⟩

/-- A diamond of the given value. -/
def cD (v : CardValue) : Card := ⟨some Suit.DIAMOND, v⟩

/-- A club of the given value. -/
def cC (v : CardValue) : Card := ⟨some Suit.CLUB, v⟩

/-- The small joker (no suit). -/
def cJokerS : Card := ⟨none, CardValue.SMALL_JOKER⟩

/-- The big joker (no suit). -/
def cJokerB : Card := ⟨none, CardValue.BIG_JOKER⟩

/-- The C4 lead hand: a winged plane 333444 + both jokers can empty it
in one enumerated combination, yet the rocket short-circuit fires
first. -/
def c4Hand : List Card :=
  [cS .THREE, cH .THREE, cD .THREE, cS .FOUR, cH .FOUR, cD .FOUR, cJokerS, cJokerB]

/-- The full-hand winged-plane combination of `c4Hand`, in the order the
enumerator produces it. -/
def c4Win : List Card :=
  [cS .THREE, cH .THREE, cD .THREE, cS .FOUR, cH .FOUR, cD .FOUR, cJokerS, cJokerB]

/-- The C7 landlord hand: two complete bombs. -/
def c7Hand : List Card :=
  [cS .THREE, cH .THREE, cD .THREE, cC .THREE, cS .FOUR, cH .FOUR, cD .FOUR, cC .FOUR]

/-- The bomb of threes from `c7Hand`. -/
def c7Move : List Card := [cS .THREE, cH .THREE, cD .THREE, cC .THREE]

/-- The C9 hand: a trio run 3-4 and three disjoint pair ranks 7, 9, J. -/
def c9Hand : List Card :=
  [cS .THREE, cH .THREE, cD .THREE, cS .FOUR, cH .FOUR, cD .FOUR,
   cS .SEVEN, cH .SEVEN, cS .NINE, cH .NINE, cS .JACK, cH .JACK]

/-- The legal plane-with-pair-wings combination 333444+77+JJ formable
from `c9Hand` that the enumerator's sliding pair window never emits. -/
def c9Move : List Card :=
  [cS .THREE, cH .THREE, cD .THREE, cS .FOUR, cH .FOUR, cD .FOUR,
   cS .SEVEN, cH .SEVEN, cS .JACK, cH .JACK]

/-- Shape signatures written from the specification's wording (§4.1 of
the spec), as the reference for checking that `classify_cards` never
reports a shape for a card list that does not carry that shape's
signature.  For the run shapes the run is determined by the
multiplicities, so the signatures are stated without existential
quantification over runs:
  * Straight: ≥ 5 all-distinct consecutive values below TWO;
  * PairStraight: ≥ 3 consecutive values below TWO, each exactly twice,
    and nothing else;
  * Plane: ≥ 2 consecutive trio values below TWO and nothing else;
  * PlaneSingle: the pair-capable values are ≥ 2 consecutive trios below
    TWO, everything else is a single, and there are run-length wings
    (so wings cannot reuse a run rank — spec §4.1 tie-break rule);
  * PlanePair: ≥ 2 consecutive trio values below TWO plus exactly
    run-length disjoint pair values and nothing else;
  * FourWithTwo: a quadruple plus two distinct singles (6 cards) or two
    pairs (8 cards);
  * TrioSingle covers both the 4-card and the spec's 5-card
    trio-plus-two-singles form. -/
@[reducible] def specShapeOK (cards : List Card) : PlayType → Prop
  | .SINGLE => cards.length = 1
  | .PAIR => cards.length = 2 ∧ ∃ v, ∀ c ∈ cards, c.value = v
  | .ROCKET => cards.length = 2 ∧ countV cards .SMALL_JOKER = 1 ∧ countV cards .BIG_JOKER = 1
  | .TRIPLE => cards.length = 3 ∧ ∃ v, ∀ c ∈ cards, c.value = v
  | .BOMB => cards.length = 4 ∧ ∃ v, ∀ c ∈ cards, c.value = v
  | .TRIO_SINGLE => ∃ t, countV cards t = 3 ∧
      (cards.length = 4 ∨ (cards.length = 5 ∧ ∀ v, v ≠ t → countV cards v ≤ 1))
  | .TRIO_PAIR => cards.length = 5 ∧ ∃ t p, t ≠ p ∧ countV cards t = 3 ∧ countV cards p = 2
  | .FOUR_WITH_TWO => ∃ f, countV cards f = 4 ∧
      ((cards.length = 6 ∧ ∀ v, v ≠ f → countV cards v ≤ 1) ∨
       (cards.length = 8 ∧ ∀ v, v ≠ f → countV cards v = 0 ∨ countV cards v = 2))
  | .STRAIGHT => 5 ≤ (presentVals cards).length ∧
      cards.length = (presentVals cards).length ∧ isConsecRun (presentVals cards) ∧
      ∀ v ∈ presentVals cards, countV cards v = 1 ∧ v.toNat < 15
  | .PAIR_STRAIGHT => 3 ≤ (presentVals cards).length ∧
      cards.length = 2 * (presentVals cards).length ∧ isConsecRun (presentVals cards) ∧
      ∀ v ∈ presentVals cards, countV cards v = 2 ∧ v.toNat < 15
  | .PLANE => 2 ≤ (presentVals cards).length ∧
      cards.length = 3 * (presentVals cards).length ∧ isConsecRun (presentVals cards) ∧
      ∀ v ∈ presentVals cards, countV cards v = 3 ∧ v.toNat < 15
  | .PLANE_SINGLE =>
      2 ≤ (CardValue.all.filter (fun v => 2 ≤ countV cards v)).length ∧
      isConsecRun (CardValue.all.filter (fun v => 2 ≤ countV cards v)) ∧
      (∀ v ∈ CardValue.all.filter (fun v => 2 ≤ countV cards v),
        countV cards v = 3 ∧ v.toNat < 15) ∧
      cards.length = 4 * (CardValue.all.filter (fun v => 2 ≤ countV cards v)).length ∧
      ∀ v, v ∉ CardValue.all.filter (fun v => 2 ≤ countV cards v) → countV cards v ≤ 1
  | .PLANE_PAIR =>
      2 ≤ (CardValue.all.filter (fun v => countV cards v = 3)).length ∧
      isConsecRun (CardValue.all.filter (fun v => countV cards v = 3)) ∧
      (∀ v ∈ CardValue.all.filter (fun v => countV cards v = 3), v.toNat < 15) ∧
      (CardValue.all.filter (fun v => countV cards v = 2)).length =
        (CardValue.all.filter (fun v => countV cards v = 3)).length ∧
      cards.length = 5 * (CardValue.all.filter (fun v => countV cards v = 3)).length ∧
      ∀ v ∈ presentVals cards,
        v ∈ CardValue.all.filter (fun v => countV cards v = 3) ∨
        v ∈ CardValue.all.filter (fun v => countV cards v = 2)

/-- Every card value occurs in the ascending enumeration. -/
lemma CardValue.mem_all (v : CardValue) : v ∈ CardValue.all := by
  cases v <;> decide

/-- The ascending enumeration has no duplicates. -/
lemma CardValue.all_nodup : CardValue.all.Nodup := by decide

/-- Membership in `presentVals` is positivity of the multiplicity. -/
lemma mem_presentVals {cards : List Card} {v : CardValue} :
    v ∈ presentVals cards ↔ 0 < countV cards v := by
  simp [presentVals, List.mem_filter, CardValue.mem_all]

/-- Positive multiplicity is membership in the value list. -/
lemma countV_pos {cards : List Card} {v : CardValue} :
    0 < countV cards v ↔ v ∈ vals cards := List.count_pos_iff

/-- The value list has the hand's length. -/
lemma length_vals (cards : List Card) : (vals cards).length = cards.length :=
  List.length_map cards Card.value

/-- Two distinct elements cannot jointly occur more often than the
length of the list. -/
lemma count_pair_le {α : Type} [DecidableEq α] (l : List α) {a b : α} (hab : a ≠ b) :
    l.count a + l.count b ≤ l.length := by
  induction l with
  | nil => simp
  | cons x xs ih =>
    by_cases hxa : a = x
    · subst hxa
      have hb : b ≠ a := fun h => hab h.symm
      simp [List.count_cons, hb, hab]
      omega
    · by_cases hxb : b = x
      · subst hxb
        simp [List.count_cons, hxa, hab]
        omega
      · simp [List.count_cons, hxa, hxb]
        omega

/-- Two sublists of a duplicate-free list with the same members are
equal. -/
lemma sublist_eq_of_mem_iff {α : Type} [DecidableEq α] :
    ∀ {L l₁ l₂ : List α}, l₁.Sublist L → l₂.Sublist L → L.Nodup →
      (∀ x, x ∈ l₁ ↔ x ∈ l₂) → l₁ = l₂ := by
  intro L
  induction L with
  | nil =>
    intro l₁ l₂ h₁ h₂ _ _
    rw [List.sublist_nil.mp h₁, List.sublist_nil.mp h₂]
  | cons a L ih =>
    intro l₁ l₂ h₁ h₂ hnd hmem
    rw [List.nodup_cons] at hnd
    cases h₁ with
    | cons _ h₁ =>
      cases h₂ with
      | cons _ h₂ => exact ih h₁ h₂ hnd.2 hmem
      | cons₂ _ h₂ =>
        exact absurd (h₁.subset ((hmem a).mpr (List.mem_cons_self a _))) hnd.1
    | cons₂ _ h₁ =>
      cases h₂ with
      | cons _ h₂ =>
        exact absurd (h₂.subset ((hmem a).mp (List.mem_cons_self a _))) hnd.1
      | cons₂ _ h₂ =>
        congr 1
        refine ih h₁ h₂ hnd.2 (fun x => ⟨fun hx => ?_, fun hx => ?_⟩)
        · rcases List.mem_cons.mp ((hmem x).mp (List.mem_cons_of_mem a hx)) with rfl | hm
          · exact absurd (h₁.subset hx) hnd.1
          · exact hm
        · rcases List.mem_cons.mp ((hmem x).mpr (List.mem_cons_of_mem a hx)) with rfl | hm
          · exact absurd (h₂.subset hx) hnd.1
          · exact hm

/-- Saturation: if two disjoint sets of values are guaranteed
multiplicities `k₁` resp. `k₂` and the list is exactly long enough for
that, the multiplicities are exact and the list contains nothing else. -/
lemma count_saturated {α : Type} [DecidableEq α] (l : List α) (S T : Finset α)
    (k₁ k₂ : ℕ) (hk₁ : 0 < k₁) (hk₂ : 0 < k₂) (hd : Disjoint S T)
    (hS : ∀ v ∈ S, k₁ ≤ l.count v) (hT : ∀ v ∈ T, k₂ ≤ l.count v)
    (hlen : l.length = k₁ * S.card + k₂ * T.card) :
    (∀ v ∈ S, l.count v = k₁) ∧ (∀ v ∈ T, l.count v = k₂) ∧
      ∀ u ∈ l, u ∈ S ∨ u ∈ T := by
  classical
  have hsum : ∑ v ∈ l.toFinset, l.count v = l.length := by
    simp
  have hSF : S ⊆ l.toFinset := by
    intro v hv
    have : 0 < l.count v := lt_of_lt_of_le hk₁ (hS v hv)
    exact List.mem_toFinset.mpr (List.count_pos_iff.mp this)
  have hTF : T ⊆ l.toFinset := by
    intro v hv
    have : 0 < l.count v := lt_of_lt_of_le hk₂ (hT v hv)
    exact List.mem_toFinset.mpr (List.count_pos_iff.mp this)
  have hUF : S ∪ T ⊆ l.toFinset := Finset.union_subset hSF hTF
  have hU : ∑ v ∈ S ∪ T, l.count v = ∑ v ∈ S, l.count v + ∑ v ∈ T, l.count v :=
    Finset.sum_union hd
  have hUle : ∑ v ∈ S ∪ T, l.count v ≤ l.length := by
    rw [← hsum]; exact Finset.sum_le_sum_of_subset hUF
  have hSge : k₁ * S.card ≤ ∑ v ∈ S, l.count v := by
    have := Finset.card_nsmul_le_sum S (fun v => l.count v) k₁ hS
    simpa [mul_comm] using this
  have hTge : k₂ * T.card ≤ ∑ v ∈ T, l.count v := by
    have := Finset.card_nsmul_le_sum T (fun v => l.count v) k₂ hT
    simpa [mul_comm] using this
  have hSeq : ∑ v ∈ S, l.count v = k₁ * S.card := by omega
  have hTeq : ∑ v ∈ T, l.count v = k₂ * T.card := by omega
  refine ⟨?_, ?_, ?_⟩
  · intro v hv
    by_contra hne
    have hlt : k₁ < l.count v := lt_of_le_of_ne (hS v hv) (Ne.symm hne)
    have : ∑ _x ∈ S, k₁ < ∑ v ∈ S, l.count v :=
      Finset.sum_lt_sum hS ⟨v, hv, hlt⟩
    rw [Finset.sum_const, smul_eq_mul, mul_comm] at this
    omega
  · intro v hv
    by_contra hne
    have hlt : k₂ < l.count v := lt_of_le_of_ne (hT v hv) (Ne.symm hne)
    have : ∑ _x ∈ T, k₂ < ∑ v ∈ T, l.count v :=
      Finset.sum_lt_sum hT ⟨v, hv, hlt⟩
    rw [Finset.sum_const, smul_eq_mul, mul_comm] at this
    omega
  · intro u hu
    by_contra hn
    push_neg at hn
    have huU : u ∉ S ∪ T := by
      simp [Finset.mem_union, hn.1, hn.2]
    have hins : insert u (S ∪ T) ⊆ l.toFinset :=
      Finset.insert_subset (List.mem_toFinset.mpr hu) hUF
    have h1 : ∑ v ∈ insert u (S ∪ T), l.count v ≤ l.length := by
      rw [← hsum]; exact Finset.sum_le_sum_of_subset hins
    rw [Finset.sum_insert huU] at h1
    have h2 : 0 < l.count u := List.count_pos_iff.mpr hu
    omega

/-- One-set form of `count_saturated`. -/
lemma count_saturated_one {α : Type} [DecidableEq α] (l : List α) (S : Finset α)
    (k : ℕ) (hk : 0 < k) (hS : ∀ v ∈ S, k ≤ l.count v) (hlen : l.length = k * S.card) :
    (∀ v ∈ S, l.count v = k) ∧ ∀ u ∈ l, u ∈ S := by
  have h := count_saturated l S ∅ k 1 hk (by norm_num) (Finset.disjoint_empty_right S)
    hS (by simp) (by simpa using hlen)
  refine ⟨h.1, fun u hu => ?_⟩
  rcases h.2.2 u hu with hs | ht
  · exact hs
  · exact absurd ht (Finset.not_mem_empty u)

/-- Membership bounds for the loop pairs of `runCandidates`. -/
lemma mem_runCandidates {n lo rl st : Nat} (h : (rl, st) ∈ runCandidates n lo) :
    lo ≤ rl ∧ st + rl ≤ n := by
  simp only [runCandidates, List.mem_flatMap, List.mem_map, List.mem_range,
    List.mem_range'_1, Prod.mk.injEq] at h
  obtain ⟨a, ⟨ha1, ha2⟩, b, hb, rfl, rfl⟩ := h
  omega

/-- Soundness of the four-with-two block of `classify_cards`. -/
lemma fourStage_sound {cards : List Card} {t : PlayType} {k : Nat}
    (h : fourStage cards = some (t, k)) :
    t = PlayType.FOUR_WITH_TWO ∧ specShapeOK cards PlayType.FOUR_WITH_TWO := by
  rw [fourStage] at h
  cases hf : (vals cards).find? (fun v => countV cards v = 4) with
  | none => simp [hf] at h
  | some f =>
    simp only [hf] at h
    have hcf : countV cards f = 4 := by
      have := List.find?_some hf
      simpa using this
    split_ifs at h with h6 h8
    · simp only [Option.some.injEq, Prod.mk.injEq] at h
      obtain ⟨rfl, rfl⟩ := h
      refine ⟨rfl, f, hcf, Or.inl ⟨h6.1, fun v hv => ?_⟩⟩
      by_contra hgt
      push_neg at hgt
      have hvp : v ∈ presentVals cards := mem_presentVals.mpr (by omega)
      have hvo : v ∈ (presentVals cards).filter (fun v => v ≠ f) :=
        List.mem_filter.mpr ⟨hvp, by simp [hv]⟩
      have := List.all_eq_true.mp h6.2.2 v hvo
      simp at this
      omega
    · simp only [Option.some.injEq, Prod.mk.injEq] at h
      obtain ⟨rfl, rfl⟩ := h
      refine ⟨rfl, f, hcf, Or.inr ⟨h8.1, fun v hv => ?_⟩⟩
      by_cases hvz : countV cards v = 0
      · exact Or.inl hvz
      · refine Or.inr ?_
        have hvp : v ∈ presentVals cards := mem_presentVals.mpr (by omega)
        have hvo : v ∈ (presentVals cards).filter (fun v => v ≠ f) :=
          List.mem_filter.mpr ⟨hvp, by simp [hv]⟩
        have := List.all_eq_true.mp h8.2.2 v hvo
        simpa using this

/-- Soundness of the trio block of `classify_cards`. -/
lemma trioStage_sound {cards : List Card} {t : PlayType} {k : Nat}
    (h : trioStage cards = some (t, k)) :
    (t = PlayType.TRIO_SINGLE ∨ t = PlayType.TRIO_PAIR) ∧ specShapeOK cards t := by
  rw [trioStage] at h
  cases hf : (vals cards).find? (fun v => countV cards v = 3) with
  | none => simp [hf] at h
  | some tv =>
    simp only [hf] at h
    have hct : countV cards tv = 3 := by
      have := List.find?_some hf
      simpa using this
    split_ifs at h with h4 h5 hp2 hp11
    · simp only [Option.some.injEq, Prod.mk.injEq] at h
      obtain ⟨rfl, rfl⟩ := h
      exact ⟨Or.inl rfl, tv, hct, Or.inl h4⟩
    · simp only [Option.some.injEq, Prod.mk.injEq] at h
      obtain ⟨rfl, rfl⟩ := h
      have hl1 : ((presentVals cards).filter (fun v => decide (v ≠ tv))).length = 1 := by
        have := congrArg List.length hp2
        simp only [List.length_map, List.length_cons, List.length_nil] at this
        exact this
      obtain ⟨p, hpl⟩ := List.length_eq_one.mp hl1
      have hpm : p ∈ (presentVals cards).filter (fun v => decide (v ≠ tv)) := by
        rw [hpl]; exact List.mem_cons_self p []
      have hpc : countV cards p = 2 := by
        rw [hpl] at hp2
        simpa using hp2
      have hptv : p ≠ tv := by
        have := (List.mem_filter.mp hpm).2
        simpa using this
      exact ⟨Or.inr rfl, h5, tv, p, fun he => hptv he.symm, hct, hpc⟩
    · simp only [Option.some.injEq, Prod.mk.injEq] at h
      obtain ⟨rfl, rfl⟩ := h
      refine ⟨Or.inl rfl, tv, hct, Or.inr ⟨h5, fun v hv => ?_⟩⟩
      by_contra hgt
      push_neg at hgt
      have hvp : v ∈ presentVals cards := mem_presentVals.mpr (by omega)
      have hvo : v ∈ (presentVals cards).filter (fun u => u ≠ tv) :=
        List.mem_filter.mpr ⟨hvp, by simp [hv]⟩
      have hcv : countV cards v ∈
          ((presentVals cards).filter (fun u => u ≠ tv)).map (countV cards) :=
        List.mem_map_of_mem (countV cards) hvo
      rw [hp11] at hcv
      simp at hcv
      omega

/-- Core argument for the run-shaped branches of `classify_cards`: if a
window of a list of values that are each present at least `kmul` times
exactly accounts for the whole hand, then the window is precisely the
set of present values and every multiplicity is exactly `kmul`. -/
lemma run_exact {cards : List Card} {pvs : List CardValue} {rl st kmul : ℕ}
    (hpvs_sub : pvs.Sublist CardValue.all)
    (hpvs_count : ∀ v ∈ pvs, kmul ≤ countV cards v)
    (hk : 0 < kmul)
    (hbound : st + rl ≤ pvs.length)
    (hlen : cards.length = kmul * rl) :
    presentVals cards = (pvs.drop st).take rl ∧
      ((pvs.drop st).take rl).length = rl ∧
      (∀ v ∈ presentVals cards, countV cards v = kmul) := by
  have hrun_sub_pvs : ((pvs.drop st).take rl).Sublist pvs :=
    (List.take_sublist _ _).trans (List.drop_sublist _ _)
  have hrun_sub : ((pvs.drop st).take rl).Sublist CardValue.all :=
    hrun_sub_pvs.trans hpvs_sub
  have hrun_nodup : ((pvs.drop st).take rl).Nodup :=
    List.Nodup.sublist hrun_sub CardValue.all_nodup
  have hrun_len : ((pvs.drop st).take rl).length = rl := by
    simp only [List.length_take, List.length_drop]
    omega
  have hcount : ∀ v ∈ (pvs.drop st).take rl, kmul ≤ (vals cards).count v :=
    fun v hv => hpvs_count v (hrun_sub_pvs.subset hv)
  have hsat := count_saturated_one (vals cards) ((pvs.drop st).take rl).toFinset kmul hk
    (fun v hv => hcount v (List.mem_toFinset.mp hv))
    (by rw [length_vals, List.toFinset_card_of_nodup hrun_nodup, hrun_len]; exact hlen)
  have hpresent : presentVals cards = (pvs.drop st).take rl := by
    refine sublist_eq_of_mem_iff (List.filter_sublist _) hrun_sub CardValue.all_nodup
      (fun x => ⟨fun hx => ?_, fun hx => ?_⟩)
    · have hpos := mem_presentVals.mp hx
      have hmem := countV_pos.mp hpos
      exact List.mem_toFinset.mp (hsat.2 x hmem)
    · exact mem_presentVals.mpr (lt_of_lt_of_le hk (hcount x hx))
  refine ⟨hpresent, hrun_len, fun v hv => ?_⟩
  rw [hpresent] at hv
  exact hsat.1 v (List.mem_toFinset.mpr hv)

/-- Soundness of the pair-straight block of `classify_cards`. -/
lemma psStage_sound {cards : List Card} {t : PlayType} {k : Nat}
    (h : psStage cards = some (t, k)) :
    t = PlayType.PAIR_STRAIGHT ∧ specShapeOK cards PlayType.PAIR_STRAIGHT := by
  simp only [psStage] at h
  obtain ⟨p, hp, hf⟩ := List.exists_of_findSome?_eq_some h
  split_ifs at hf with hg
  obtain ⟨hcons, hlen2⟩ := hg
  simp only [Option.some.injEq, Prod.mk.injEq] at hf
  obtain ⟨rfl, rfl⟩ := hf
  obtain ⟨hlo, hbound⟩ := mem_runCandidates hp
  have hpvs_mem : ∀ v ∈ CardValue.all.filter
      (fun v => decide (2 ≤ countV cards v ∧ v.toNat < 15)),
      2 ≤ countV cards v ∧ v.toNat < 15 := by
    intro v hv
    have := (List.mem_filter.mp hv).2
    simpa using this
  have hre := @run_exact cards _ p.1 p.2 2 (List.filter_sublist _)
    (fun v hv => (hpvs_mem v hv).1) (by norm_num) hbound (by omega)
  obtain ⟨hpresent, hrlen, hcnt⟩ := hre
  refine ⟨rfl, ?_, ?_, ?_, ?_⟩
  · rw [hpresent, hrlen]; exact hlo
  · rw [hpresent, hrlen]; omega
  · rw [hpresent]; exact hcons
  · intro v hv
    refine ⟨hcnt v hv, ?_⟩
    rw [hpresent] at hv
    have hvp : v ∈ CardValue.all.filter
        (fun v => decide (2 ≤ countV cards v ∧ v.toNat < 15)) :=
      ((List.take_sublist _ _).trans (List.drop_sublist _ _)).subset hv
    exact (hpvs_mem v hvp).2

/-- Soundness of the straight block of `classify_cards`. -/
lemma straightStage_sound {cards : List Card} {t : PlayType} {k : Nat}
    (h : straightStage cards = some (t, k)) :
    t = PlayType.STRAIGHT ∧ specShapeOK cards PlayType.STRAIGHT := by
  simp only [straightStage] at h
  split_ifs at h with hg
  obtain ⟨h5, hlen, hcons⟩ := hg
  simp only [Option.some.injEq, Prod.mk.injEq] at h
  obtain ⟨rfl, rfl⟩ := h
  have hsvs_mem : ∀ v ∈ (presentVals cards).filter (fun v => decide (v.toNat < 15)),
      0 < countV cards v ∧ v.toNat < 15 := by
    intro v hv
    obtain ⟨hv1, hv2⟩ := List.mem_filter.mp hv
    exact ⟨mem_presentVals.mp hv1, by simpa using hv2⟩
  have hre := @run_exact cards ((presentVals cards).filter (fun v => decide (v.toNat < 15)))
    ((presentVals cards).filter (fun v => decide (v.toNat < 15))).length 0 1
    ((List.filter_sublist _).trans (List.filter_sublist _))
    (fun v hv => (hsvs_mem v hv).1) (by norm_num) (by omega) (by omega)
  rw [List.drop_zero, List.take_length] at hre
  obtain ⟨hpresent, hrlen, hcnt⟩ := hre
  refine ⟨rfl, ?_, ?_, ?_, ?_⟩
  · rw [hpresent]; exact h5
  · rw [hpresent]; exact hlen
  · rw [hpresent]; exact hcons
  · intro v hv
    refine ⟨hcnt v hv, ?_⟩
    rw [hpresent] at hv
    exact (hsvs_mem v hv).2

/-- The plane block only ever reports plane shapes. -/
lemma planeStage_shapes {cards : List Card} {t : PlayType} {k : Nat}
    (h : planeStage cards = some (t, k)) :
    t = PlayType.PLANE ∨ t = PlayType.PLANE_SINGLE ∨ t = PlayType.PLANE_PAIR := by
  simp only [planeStage] at h
  split_ifs at h with h2
  obtain ⟨p, hp, hf⟩ := List.exists_of_findSome?_eq_some h
  split_ifs at hf <;> simp only [Option.some.injEq, Prod.mk.injEq] at hf <;>
    obtain ⟨rfl, rfl⟩ := hf
  · exact Or.inl rfl
  · exact Or.inr (Or.inl rfl)
  · exact Or.inr (Or.inr rfl)

/-- Soundness of the plane block of `classify_cards`, away from the
`PLANE_SINGLE` wing anomaly. -/
lemma planeStage_sound {cards : List Card} {t : PlayType} {k : Nat}
    (h : planeStage cards = some (t, k)) (hne : t ≠ PlayType.PLANE_SINGLE) :
    specShapeOK cards t := by
  simp only [planeStage] at h
  split_ifs at h with h2
  obtain ⟨p, hp, hf⟩ := List.exists_of_findSome?_eq_some h
  obtain ⟨hlo, hbound⟩ := mem_runCandidates hp
  have htvs_mem : ∀ v ∈ CardValue.all.filter
      (fun v => decide (3 ≤ countV cards v ∧ v.toNat < 15)),
      3 ≤ countV cards v ∧ v.toNat < 15 := by
    intro v hv
    have := (List.mem_filter.mp hv).2
    simpa using this
  split_ifs at hf with hcons hp3 hp4 hp5
  · -- pure plane
    simp only [Option.some.injEq, Prod.mk.injEq] at hf
    obtain ⟨rfl, rfl⟩ := hf
    have hre := @run_exact cards _ p.1 p.2 3 (List.filter_sublist _)
      (fun v hv => (htvs_mem v hv).1) (by norm_num) hbound (by omega)
    obtain ⟨hpresent, hrlen, hcnt⟩ := hre
    refine ⟨?_, ?_, ?_, ?_⟩
    · rw [hpresent, hrlen]; exact hlo
    · rw [hpresent, hrlen]; omega
    · rw [hpresent]; exact hcons
    · intro v hv
      refine ⟨hcnt v hv, ?_⟩
      rw [hpresent] at hv
      have hvp : v ∈ CardValue.all.filter
          (fun v => decide (3 ≤ countV cards v ∧ v.toNat < 15)) :=
        ((List.take_sublist _ _).trans (List.drop_sublist _ _)).subset hv
      exact (htvs_mem v hvp).2
  · -- plane with single wings: excluded by hypothesis
    simp only [Option.some.injEq, Prod.mk.injEq] at hf
    obtain ⟨rfl, rfl⟩ := hf
    exact absurd rfl hne
  · -- plane with pair wings
    simp only [Option.some.injEq, Prod.mk.injEq] at hf
    obtain ⟨rfl, rfl⟩ := hf
    obtain ⟨hlen5, hwlen⟩ := hp5
    set tvs := CardValue.all.filter
      (fun v => decide (3 ≤ countV cards v ∧ v.toNat < 15)) with htvs_def
    set run := (tvs.drop p.2).take p.1 with hrun_def
    set wvs := (presentVals cards).filter
      (fun v => decide (v ∉ run ∧ 2 ≤ countV cards v)) with hwvs_def
    have hrun_sub_tvs : run.Sublist tvs :=
      (List.take_sublist _ _).trans (List.drop_sublist _ _)
    have hrun_sub : run.Sublist CardValue.all :=
      hrun_sub_tvs.trans (List.filter_sublist _)
    have hrun_nodup : run.Nodup := List.Nodup.sublist hrun_sub CardValue.all_nodup
    have hrun_len : run.length = p.1 := by
      rw [hrun_def]
      simp only [List.length_take, List.length_drop]
      omega
    have hwvs_mem : ∀ v ∈ wvs, v ∉ run ∧ 2 ≤ countV cards v := by
      intro v hv
      have := (List.mem_filter.mp hv).2
      simpa using this
    have hwtake_sub : (wvs.take p.1).Sublist CardValue.all :=
      ((List.take_sublist _ _).trans (List.filter_sublist _)).trans (List.filter_sublist _)
    have hwtake_nodup : (wvs.take p.1).Nodup :=
      List.Nodup.sublist hwtake_sub CardValue.all_nodup
    have hwtake_len : (wvs.take p.1).length = p.1 := by
      simp only [List.length_take]
      omega
    have hwtake_mem : ∀ v ∈ wvs.take p.1, v ∉ run ∧ 2 ≤ countV cards v :=
      fun v hv => hwvs_mem v ((List.take_sublist _ _).subset hv)
    have hdisj : Disjoint run.toFinset (wvs.take p.1).toFinset := by
      rw [Finset.disjoint_left]
      intro v hv hw
      exact (hwtake_mem v (List.mem_toFinset.mp hw)).1 (List.mem_toFinset.mp hv)
    have hsat := count_saturated (vals cards) run.toFinset (wvs.take p.1).toFinset 3 2
      (by norm_num) (by norm_num) hdisj
      (fun v hv => (htvs_mem v (hrun_sub_tvs.subset (List.mem_toFinset.mp hv))).1)
      (fun v hv => (hwtake_mem v (List.mem_toFinset.mp hv)).2)
      (by
        rw [length_vals, List.toFinset_card_of_nodup hrun_nodup,
          List.toFinset_card_of_nodup hwtake_nodup, hrun_len, hwtake_len]
        omega)
    obtain ⟨hc3, hc2, hcov⟩ := hsat
    have hrun_eq : CardValue.all.filter (fun v => decide (countV cards v = 3)) = run := by
      refine sublist_eq_of_mem_iff (List.filter_sublist _) hrun_sub CardValue.all_nodup
        (fun x => ⟨fun hx => ?_, fun hx => ?_⟩)
      · have hx3 : countV cards x = 3 := by
          have := (List.mem_filter.mp hx).2
          simpa using this
        have hxm : x ∈ vals cards := countV_pos.mp (by omega)
        rcases hcov x hxm with hr | hw
        · exact List.mem_toFinset.mp hr
        · have hx3c : List.count x (vals cards) = 3 := hx3
          have := hc2 x hw
          omega
      · refine List.mem_filter.mpr ⟨CardValue.mem_all x, ?_⟩
        simp only [decide_eq_true_eq]
        exact hc3 x (List.mem_toFinset.mpr hx)
    have hwings_eq : CardValue.all.filter (fun v => decide (countV cards v = 2)) =
        wvs.take p.1 := by
      refine sublist_eq_of_mem_iff (List.filter_sublist _) hwtake_sub CardValue.all_nodup
        (fun x => ⟨fun hx => ?_, fun hx => ?_⟩)
      · have hx2 : countV cards x = 2 := by
          have := (List.mem_filter.mp hx).2
          simpa using this
        have hxm : x ∈ vals cards := countV_pos.mp (by omega)
        rcases hcov x hxm with hr | hw
        · have hx2c : List.count x (vals cards) = 2 := hx2
          have := hc3 x hr
          omega
        · exact List.mem_toFinset.mp hw
      · refine List.mem_filter.mpr ⟨CardValue.mem_all x, ?_⟩
        simp only [decide_eq_true_eq]
        exact hc2 x (List.mem_toFinset.mpr hx)
    refine ⟨?_, ?_, ?_, ?_, ?_, ?_⟩
    · rw [hrun_eq, hrun_len]; exact hlo
    · rw [hrun_eq]; exact hcons
    · intro v hv
      rw [hrun_eq] at hv
      exact (htvs_mem v (hrun_sub_tvs.subset hv)).2
    · rw [hrun_eq, hwings_eq, hrun_len, hwtake_len]
    · rw [hrun_eq, hrun_len]; omega
    · intro v hv
      rw [hrun_eq, hwings_eq]
      have hxm : v ∈ vals cards := countV_pos.mp (mem_presentVals.mp hv)
      rcases hcov v hxm with hr | hw
      · exact Or.inl (List.mem_toFinset.mp hr)
      · exact Or.inr (List.mem_toFinset.mp hw)

/-- Classification facts used by the comparator theorems: a classified
hand is nonempty, a `ROCKET` report has 2 cards and key 17, and a `BOMB`
report has 4 cards. -/
lemma classifyCards_facts {cards : List Card} {t : PlayType} {k : Nat}
    (h : classifyCards cards = some (t, k)) :
    0 < cards.length ∧ (t = PlayType.ROCKET → cards.length = 2 ∧ k = 17) ∧
      (t = PlayType.BOMB → cards.length = 4) := by
  rw [classifyCards] at h
  split_ifs at h with g0 g1 g2 g3 g4 g5
  · simp only [Option.some.injEq, Prod.mk.injEq] at h
    obtain ⟨rfl, rfl⟩ := h
    exact ⟨by omega, fun _ => ⟨g1.1, by decide⟩, fun hb => absurd hb (by decide)⟩
  · simp only [Option.some.injEq, Prod.mk.injEq] at h
    obtain ⟨rfl, rfl⟩ := h
    exact ⟨by omega, fun hr => absurd hr (by decide), fun hb => absurd hb (by decide)⟩
  · simp only [Option.some.injEq, Prod.mk.injEq] at h
    obtain ⟨rfl, rfl⟩ := h
    exact ⟨by omega, fun hr => absurd hr (by decide), fun hb => absurd hb (by decide)⟩
  · simp only [Option.some.injEq, Prod.mk.injEq] at h
    obtain ⟨rfl, rfl⟩ := h
    exact ⟨by omega, fun hr => absurd hr (by decide), fun hb => absurd hb (by decide)⟩
  · simp only [Option.some.injEq, Prod.mk.injEq] at h
    obtain ⟨rfl, rfl⟩ := h
    exact ⟨by omega, fun hr => absurd hr (by decide), fun _ => g5.1⟩
  · have hpos : 0 < cards.length := by omega
    unfold classifyRest at h
    cases h4 : fourStage cards with
    | some r =>
      rw [h4] at h
      simp only [Option.some.injEq] at h
      subst h
      obtain ⟨ht, _⟩ := fourStage_sound h4
      subst ht
      exact ⟨hpos, fun hr => absurd hr (by decide), fun hb => absurd hb (by decide)⟩
    | none =>
      rw [h4] at h
      cases h5 : trioStage cards with
      | some r =>
        rw [h5] at h
        simp only [Option.some.injEq] at h
        subst h
        obtain ⟨ht, _⟩ := trioStage_sound h5
        rcases ht with ht | ht <;> subst ht <;>
          exact ⟨hpos, fun hr => absurd hr (by decide), fun hb => absurd hb (by decide)⟩
      | none =>
        rw [h5] at h
        cases h6 : psStage cards with
        | some r =>
          rw [h6] at h
          simp only [Option.some.injEq] at h
          subst h
          obtain ⟨ht, _⟩ := psStage_sound h6
          subst ht
          exact ⟨hpos, fun hr => absurd hr (by decide), fun hb => absurd hb (by decide)⟩
        | none =>
          rw [h6] at h
          cases h7 : straightStage cards with
          | some r =>
            rw [h7] at h
            simp only [Option.some.injEq] at h
            subst h
            obtain ⟨ht, _⟩ := straightStage_sound h7
            subst ht
            exact ⟨hpos, fun hr => absurd hr (by decide), fun hb => absurd hb (by decide)⟩
          | none =>
            rw [h7] at h
            rcases planeStage_shapes h with ht | ht | ht <;> subst ht <;>
              exact ⟨hpos, fun hr => absurd hr (by decide), fun hb => absurd hb (by decide)⟩

/-- C3 (amended): soundness of the game's classifier.  Whenever
`classify_cards` reports a shape other than `PLANE_SINGLE`, the card
list satisfies that shape's signature from the specification (under
which a 5-card trio plus two singles is a legal `TrioSingle`); so with
that single exception `classify_cards` never reports a legal shape for
an illegal combination, and it returns the `InvalidShape` outcome
(`None`) for every unmatched list.  The AI's `_analyze_play`, by
contrast, has no invalid outcome at all (see the counterexample). -/
theorem c3_classify_sound_except_plane_single (cards : List Card) (t : PlayType) (k : Nat)
    (h : classifyCards cards = some (t, k)) (hne : t ≠ PlayType.PLANE_SINGLE) :
    specShapeOK cards t := by
  rw [classifyCards] at h
  split_ifs at h with g0 g1 g2 g3 g4 g5
  · simp only [Option.some.injEq, Prod.mk.injEq] at h
    obtain ⟨rfl, rfl⟩ := h
    obtain ⟨hl2, hsj, hbj⟩ := g1
    have hps : 0 < (vals cards).count CardValue.SMALL_JOKER := List.count_pos_iff.mpr hsj
    have hpb : 0 < (vals cards).count CardValue.BIG_JOKER := List.count_pos_iff.mpr hbj
    have hble := count_pair_le (vals cards)
      (a := CardValue.SMALL_JOKER) (b := CardValue.BIG_JOKER) (by decide)
    rw [length_vals, hl2] at hble
    have e1 : countV cards CardValue.SMALL_JOKER = (vals cards).count CardValue.SMALL_JOKER := rfl
    have e2 : countV cards CardValue.BIG_JOKER = (vals cards).count CardValue.BIG_JOKER := rfl
    exact ⟨hl2, by omega, by omega⟩
  · simp only [Option.some.injEq, Prod.mk.injEq] at h
    obtain ⟨rfl, rfl⟩ := h
    exact g2
  · simp only [Option.some.injEq, Prod.mk.injEq] at h
    obtain ⟨rfl, rfl⟩ := h
    obtain ⟨v, hvl⟩ := List.length_eq_one.mp g3.2
    refine ⟨g3.1, v, fun c hc => ?_⟩
    have hcv : c.value ∈ presentVals cards :=
      mem_presentVals.mpr (countV_pos.mpr (List.mem_map_of_mem Card.value hc))
    rw [hvl] at hcv
    simpa using hcv
  · simp only [Option.some.injEq, Prod.mk.injEq] at h
    obtain ⟨rfl, rfl⟩ := h
    obtain ⟨v, hvp, hv3⟩ := List.any_eq_true.mp g4.2
    simp only [decide_eq_true_eq] at hv3
    refine ⟨g4.1, v, fun c hc => ?_⟩
    have hlen : (vals cards).count v = (vals cards).length := by
      rw [length_vals, g4.1]; exact hv3
    exact ((List.count_eq_length.mp hlen) c.value (List.mem_map_of_mem Card.value hc)).symm
  · simp only [Option.some.injEq, Prod.mk.injEq] at h
    obtain ⟨rfl, rfl⟩ := h
    obtain ⟨v, hvp, hv4⟩ := List.any_eq_true.mp g5.2
    simp only [decide_eq_true_eq] at hv4
    refine ⟨g5.1, v, fun c hc => ?_⟩
    have hlen : (vals cards).count v = (vals cards).length := by
      rw [length_vals, g5.1]; exact hv4
    exact ((List.count_eq_length.mp hlen) c.value (List.mem_map_of_mem Card.value hc)).symm
  · unfold classifyRest at h
    cases h4 : fourStage cards with
    | some r =>
      rw [h4] at h
      simp only [Option.some.injEq] at h
      subst h
      obtain ⟨ht, hsig⟩ := fourStage_sound h4
      subst ht
      exact hsig
    | none =>
      rw [h4] at h
      cases h5 : trioStage cards with
      | some r =>
        rw [h5] at h
        simp only [Option.some.injEq] at h
        subst h
        exact (trioStage_sound h5).2
      | none =>
        rw [h5] at h
        cases h6 : psStage cards with
        | some r =>
          rw [h6] at h
          simp only [Option.some.injEq] at h
          subst h
          obtain ⟨ht, hsig⟩ := psStage_sound h6
          subst ht
          exact hsig
        | none =>
          rw [h6] at h
          cases h7 : straightStage cards with
          | some r =>
            rw [h7] at h
            simp only [Option.some.injEq] at h
            subst h
            obtain ⟨ht, hsig⟩ := straightStage_sound h7
            subst ht
            exact hsig
          | none =>
            rw [h7] at h
            exact planeStage_sound h hne

/-- C5: for every legal classified play, comparing it against an
identical copy of itself yields 0 — in particular never 1 — so a play
never beats an identical play (`_compare_play` reports a beat only as
1). -/
theorem c5_compare_self_not_greater (cards : List Card)
    (h : (classifyCards cards).isSome) : comparePlay cards cards = 0 := by
  obtain ⟨⟨t, k⟩, hc⟩ := Option.isSome_iff_exists.mp h
  have hpos := (classifyCards_facts hc).1
  have hnz : ¬(cards.length = 0) := by omega
  simp only [comparePlay, hc, if_neg hnz]
  rw [if_pos trivial]
  split_ifs <;> omega

/-- C2: the comparator's cross-shape rules.  Rocket beats every
non-Rocket play and nothing beats Rocket; a Bomb beats every non-Bomb,
non-Rocket play and a Bomb of strictly lower rank; and two ordinary
plays of different shape, or of the same shape but different card
count, always compare as 0 (the comparator's invalid/incomparable
outcome, never a legal beat). -/
theorem c2_comparator_cross_shape_rules (cardsA cardsB : List Card)
    (t1 : PlayType) (k1 : Nat) (t2 : PlayType) (k2 : Nat)
    (h1 : classifyCards cardsA = some (t1, k1))
    (h2 : classifyCards cardsB = some (t2, k2)) :
    (t1 = PlayType.ROCKET ∧ t2 ≠ PlayType.ROCKET → comparePlay cardsA cardsB = 1) ∧
    (t2 = PlayType.ROCKET → comparePlay cardsA cardsB ≠ 1) ∧
    (t1 = PlayType.BOMB ∧ t2 ≠ PlayType.BOMB ∧ t2 ≠ PlayType.ROCKET →
      comparePlay cardsA cardsB = 1) ∧
    (t1 = PlayType.BOMB ∧ t2 = PlayType.BOMB ∧ k2 < k1 → comparePlay cardsA cardsB = 1) ∧
    (t1 ≠ PlayType.BOMB ∧ t1 ≠ PlayType.ROCKET ∧ t2 ≠ PlayType.BOMB ∧ t2 ≠ PlayType.ROCKET ∧
      (t1 ≠ t2 ∨ cardsA.length ≠ cardsB.length) → comparePlay cardsA cardsB = 0) := by
  obtain ⟨hpos1, hrk1, hbm1⟩ := classifyCards_facts h1
  obtain ⟨hpos2, hrk2, hbm2⟩ := classifyCards_facts h2
  have hnz1 : ¬(cardsA.length = 0) := by omega
  have hnz2 : ¬(cardsB.length = 0) := by omega
  simp only [comparePlay, h1, h2, if_neg hnz1, if_neg hnz2]
  refine ⟨?_, ?_, ?_, ?_, ?_⟩
  · rintro ⟨rfl, hne⟩
    rw [if_neg (fun he => hne he.symm), if_pos rfl]
  · intro hr2
    subst hr2
    by_cases he : t1 = PlayType.ROCKET
    · subst he
      obtain ⟨hl1, hk1⟩ := hrk1 rfl
      obtain ⟨hl2, hk2⟩ := hrk2 rfl
      rw [if_pos rfl, if_neg (by decide), if_neg (by decide), if_neg (by omega),
        if_neg (by omega), if_neg (by omega)]
      decide
    · rw [if_neg he, if_neg he, if_pos rfl]
      decide
  · rintro ⟨rfl, hnb, hnr⟩
    rw [if_neg (fun he => hnb he.symm), if_neg (by decide), if_neg hnr,
      if_pos ⟨rfl, hnr⟩]
  · rintro ⟨rfl, rfl, hk⟩
    have h41 := hbm1 rfl
    have h42 := hbm2 rfl
    rw [if_pos rfl, if_neg (by decide), if_neg (by decide), if_neg (by omega), if_pos hk]
  · rintro ⟨hb1, hr1, hb2, hr2, hdiff⟩
    rcases hdiff with hne | hlen
    · rw [if_neg hne, if_neg hr1, if_neg hr2,
        if_neg (fun hc : _ ∧ _ => hb1 hc.1), if_neg (fun hc : _ ∧ _ => hb2 hc.1)]
    · by_cases hteq : t1 = t2
      · subst hteq
        rw [if_pos rfl]
        split_ifs <;> omega
      · rw [if_neg hteq, if_neg hr1, if_neg hr2,
          if_neg (fun hc : _ ∧ _ => hb1 hc.1), if_neg (fun hc : _ ∧ _ => hb2 hc.1)]

/-- C1: the claim fails on the AI's `_analyze_play`: its straight and
pair-straight tests never exclude 2 or the jokers, so J-Q-K-A-2 is
reported a Straight, K-K-A-A-2-2 a PairStraight, and even K-A-2 plus
both jokers a Straight; the game's `classify_cards` (which filters
values below TWO) rejects all of them. -/
theorem c1_analyze_straight_includes_two_and_jokers :
    analyzePlay [cS .JACK, cS .QUEEN, cS .KING, cS .ACE, cS .TWO] =
      (PlayType.STRAIGHT, CardValue.TWO) ∧
    analyzePlay [cS .KING, cH .KING, cS .ACE, cH .ACE, cS .TWO, cH .TWO] =
      (PlayType.PAIR_STRAIGHT, CardValue.TWO) ∧
    analyzePlay [cS .KING, cS .ACE, cS .TWO, cJokerS, cJokerB] =
      (PlayType.STRAIGHT, CardValue.BIG_JOKER) ∧
    classifyCards [cS .JACK, cS .QUEEN, cS .KING, cS .ACE, cS .TWO] = none ∧
    classifyCards [cS .KING, cH .KING, cS .ACE, cH .ACE, cS .TWO, cH .TWO] = none ∧
    classifyCards [cS .KING, cS .ACE, cS .TWO, cJokerS, cJokerB] = none := by
  decide

/-- C2 witness: a Rocket beats a single three. -/
theorem c2_comparator_cross_shape_rules_witness :
    comparePlay [cJokerS, cJokerB] [cS .THREE] = 1 :=
  (c2_comparator_cross_shape_rules [cJokerS, cJokerB] [cS .THREE]
    PlayType.ROCKET 17 PlayType.SINGLE 3 (by decide) (by decide)).1 ⟨rfl, by decide⟩

/-- C3 counterexample: the claim as stated fails three ways.
`_analyze_play` reports the legal shape Single(4) for the illegal
two-card list 3-4 (it has no InvalidShape outcome at all); the claim's
example "3+1+1 read as no shape" is classified TrioSingle by
`classify_cards` (and sanctioned by the spec); and `classify_cards`
reports PlaneSingle for 3333444+5 although its wings reuse the trio
rank 3, which matches no spec signature. -/
theorem c3_classification_anomalies :
    analyzePlay [cS .THREE, cH .FOUR] = (PlayType.SINGLE, CardValue.FOUR) ∧
    classifyCards [cS .THREE, cH .FOUR] = none ∧
    classifyCards [cS .THREE, cH .THREE, cD .THREE, cS .FOUR, cS .FIVE] =
      some (PlayType.TRIO_SINGLE, 3) ∧
    classifyCards [cS .THREE, cH .THREE, cD .THREE, cC .THREE,
      cS .FOUR, cH .FOUR, cD .FOUR, cS .FIVE] = some (PlayType.PLANE_SINGLE, 4) ∧
    ¬ specShapeOK [cS .THREE, cH .THREE, cD .THREE, cC .THREE,
      cS .FOUR, cH .FOUR, cD .FOUR, cS .FIVE] PlayType.PLANE_SINGLE := by
  decide

/-- C3 witness: the soundness theorem applied to a classified straight. -/
theorem c3_classify_sound_except_plane_single_witness :
    specShapeOK [cS .SEVEN, cS .EIGHT, cS .NINE, cS .TEN, cS .JACK] PlayType.STRAIGHT :=
  c3_classify_sound_except_plane_single
    [cS .SEVEN, cS .EIGHT, cS .NINE, cS .TEN, cS .JACK] PlayType.STRAIGHT 11
    (by decide) (by decide)

/-- C4: the code bug.  From `c4Hand` the enumerator offers the 8-card
winged plane `c4Win`, which uses every card in the hand; the claim says
the Lead chooser must return a hand-emptying combination, but
`_choose_initiative_move` tests the Rocket before the immediate-win
rule (which itself only adds `+inf` priority to every move via
`_can_finish_in_one_round(player_cards)`), so it returns the 2-card
rocket instead. -/
theorem c4_initiative_skips_hand_emptying_win :
    c4Win ∈ getAllPlayableMoves c4Hand ∧
    c4Win.length = c4Hand.length ∧
    chooseInitiativeMove (getAllPlayableMoves c4Hand) c4Hand true Position.landlord ∅ =
      [cJokerS, cJokerB] ∧
    ([cJokerS, cJokerB] : List Card).length ≠ c4Hand.length := by
  decide

/-- C5 witness: a single three compared against itself. -/
theorem c5_compare_self_not_greater_witness :
    comparePlay [cS .THREE] [cS .THREE] = 0 :=
  c5_compare_self_not_greater [cS .THREE] (by decide)

/-- C6: the code bug in the AI's four-with-two analysis.  On 6 cards
`_analyze_play` accepts four 5s plus a pair of 6s as FourWithTwo (the
claim says 4+2 is not FourWithTwo) and keys FourWithTwo by the maximum
card value instead of the four-of-a-kind rank; the 8-card 4+2+2 form
falls through to the Single fallback.  The game's `classify_cards`
implements the claim correctly on all three inputs. -/
theorem c6_four_with_two_analyze_mismatch :
    analyzePlay [cS .FIVE, cH .FIVE, cD .FIVE, cC .FIVE, cS .SIX, cH .SIX] =
      (PlayType.FOUR_WITH_TWO, CardValue.SIX) ∧
    classifyCards [cS .FIVE, cH .FIVE, cD .FIVE, cC .FIVE, cS .SIX, cH .SIX] = none ∧
    analyzePlay [cS .FIVE, cH .FIVE, cD .FIVE, cC .FIVE, cS .SIX, cS .SEVEN] =
      (PlayType.FOUR_WITH_TWO, CardValue.SEVEN) ∧
    classifyCards [cS .FIVE, cH .FIVE, cD .FIVE, cC .FIVE, cS .SIX, cS .SEVEN] =
      some (PlayType.FOUR_WITH_TWO, 5) ∧
    analyzePlay [cS .FIVE, cH .FIVE, cD .FIVE, cC .FIVE, cS .SIX, cH .SIX,
      cS .SEVEN, cH .SEVEN] = (PlayType.SINGLE, CardValue.SEVEN) ∧
    classifyCards [cS .FIVE, cH .FIVE, cD .FIVE, cC .FIVE, cS .SIX, cH .SIX,
      cS .SEVEN, cH .SEVEN] = some (PlayType.FOUR_WITH_TWO, 5) := by
  decide

/-- C7: the code bug in the bomb gate.  The landlord plays the bomb of
threes from `c7Hand`; the remaining four cards are the complete bomb of
fours (≤ 5 cards), so by the claim the gate must pass.  But the gate
counts remaining bombs by classifying each remaining card singly
(`_analyze_play([c])` is always Single), so `bomb_count` is 0 and the
gate refuses. -/
theorem c7_landlord_second_bomb_gate_dead :
    analyzePlay c7Move = (PlayType.BOMB, CardValue.THREE) ∧
    c7Hand.filter (fun c => c ∉ c7Move) = [cS .FOUR, cH .FOUR, cD .FOUR, cC .FOUR] ∧
    countV (c7Hand.filter (fun c => c ∉ c7Move)) CardValue.FOUR = 4 ∧
    (c7Hand.filter (fun c => c ∉ c7Move)).length ≤ 5 ∧
    shouldUseBomb c7Move c7Hand true 2 none = false := by
  decide

/-- C9: the code bug in the plane-with-pair-wings enumeration.
`c9Move` (333444 + 77 + JJ) is a legal PlanePair drawn from `c9Hand`,
but the enumerator chooses pair wings only from contiguous windows of
the sorted pair ranks [7, 9, J], so no emitted combination carries both
the pair of 7s and the pair of Js. -/
theorem c9_plane_pair_wings_window_omission :
    (∀ v, countV c9Move v ≤ countV c9Hand v) ∧
    classifyCards c9Move = some (PlayType.PLANE_PAIR, 4) ∧
    ∀ l ∈ getPlaneWithWings c9Hand,
      ¬(countV l CardValue.SEVEN = 2 ∧ countV l CardValue.JACK = 2) := by
  decide

/-- C10: the seen-cards accumulator is a set of ranks, so recording
cards whose ranks are already recorded leaves it unchanged — recording
is idempotent per rank and never retains the number of copies played. -/
theorem c10_seen_cards_idempotent (seen : Finset CardValue) (cards : List Card)
    (h : ∀ c ∈ cards, c.value ∈ seen) : recordPlayedCards seen cards = seen := by
  induction cards generalizing seen with
  | nil => rfl
  | cons c cs ih =>
    have hstep : recordPlayedCards seen (c :: cs) =
        recordPlayedCards (insert c.value seen) cs := rfl
    rw [hstep, Finset.insert_eq_self.mpr (h c (List.mem_cons_self c cs))]
    exact ih seen (fun x hx => h x (List.mem_cons_of_mem c hx))

/-- C10 witness: recording two more threes over a set already holding
THREE changes nothing. -/
theorem c10_seen_cards_idempotent_witness :
    recordPlayedCards {CardValue.THREE} [cS .THREE, cH .THREE] = {CardValue.THREE} :=
  c10_seen_cards_idempotent {CardValue.THREE} [cS .THREE, cH .THREE] (by decide)

/-- C8 (amended): in Endgame scoring a candidate that empties the hand
is assigned finish-probability 1.0 for the landlord but 0.8 for a
non-landlord (the role multiplier applies even to emptying plays), so
its weight is `2·base + 5` resp. `2·base + 4`. -/
theorem c8_endgame_emptying_weight (move playerCards : List Card) (isLandlord : Bool)
    (hlen : playerCards.length ≤ 5)
    (hrem : playerCards.filter (fun c => c ∉ move) = []) :
    calculateEndgameWeight move playerCards isLandlord =
      2 * calculateBaseWeight (analyzePlay move).1 move +
        5 * (if isLandlord then 1 else 0.8) := by
  simp only [calculateEndgameWeight, hrem]
  rw [if_neg (by omega)]
  cases isLandlord <;> simp <;> ring

/-- C8 witness: the landlord's last single three. -/
theorem c8_endgame_emptying_weight_witness :
    calculateEndgameWeight [cS .THREE] [cS .THREE] true =
      2 * calculateBaseWeight (analyzePlay [cS .THREE]).1 [cS .THREE] +
        5 * (if true then 1 else 0.8) :=
  c8_endgame_emptying_weight [cS .THREE] [cS .THREE] true (by decide) (by decide)

/-- C8 counterexample: for a non-landlord the emptying single three is
weighted `2·0.5 + 5·0.8 = 5`, not the claimed `2·0.5 + 5·1.0 = 6`; and
an emptying candidate is not always selected: from the hand 2-2-2 the
endgame chooser prefers the non-emptying pair of 2s (weight 10.1) over
the hand-emptying trio of 2s (weight 9). -/
theorem c8_endgame_counterexamples :
    calculateEndgameWeight [cS .THREE] [cS .THREE] false = 5 ∧
    (5 : ℚ) ≠ 2 * calculateBaseWeight (analyzePlay [cS .THREE]).1 [cS .THREE] + 5 * 1 ∧
    chooseEndgameMove [[cS .TWO, cH .TWO, cD .TWO], [cS .TWO, cH .TWO]]
      [cS .TWO, cH .TWO, cD .TWO] true = [cS .TWO, cH .TWO] := by
  have ha3 : analyzePlay [cS .THREE] = (PlayType.SINGLE, CardValue.THREE) := by decide
  have hm3 : maxValD (vals [cS .THREE]) = CardValue.THREE := by decide
  refine ⟨?_, ?_, ?_⟩
  · have hr : (([cS .THREE] : List Card)).filter
        (fun c => c ∉ ([cS .THREE] : List Card)) = [] := by decide
    simp only [calculateEndgameWeight, ha3, hr, calculateBaseWeight, hm3,
      List.length_cons, List.length_nil, CardValue.toNat]
    norm_num
  · simp only [ha3, calculateBaseWeight, hm3, CardValue.toNat]
    norm_num
  · have w1 : calculateEndgameWeight [cS .TWO, cH .TWO, cD .TWO]
        [cS .TWO, cH .TWO, cD .TWO] true = 9 := by
      have ha : analyzePlay [cS .TWO, cH .TWO, cD .TWO] = (PlayType.TRIPLE, CardValue.TWO) := by
        decide
      have hr : (([cS .TWO, cH .TWO, cD .TWO] : List Card)).filter
          (fun c => c ∉ ([cS .TWO, cH .TWO, cD .TWO] : List Card)) = [] := by decide
      simp only [calculateEndgameWeight, ha, hr, calculateBaseWeight,
        List.length_cons, List.length_nil]
      norm_num
    have w2 : calculateEndgameWeight [cS .TWO, cH .TWO]
        [cS .TWO, cH .TWO, cD .TWO] true = 10.1 := by
      have ha : analyzePlay [cS .TWO, cH .TWO] = (PlayType.PAIR, CardValue.TWO) := by decide
      have hr : (([cS .TWO, cH .TWO, cD .TWO] : List Card)).filter
          (fun c => c ∉ ([cS .TWO, cH .TWO] : List Card)) = [cD .TWO] := by decide
      have hm1 : maxValD (vals [cS .TWO, cH .TWO]) = CardValue.TWO := by decide
      have hm2 : maxValD (vals [cD .TWO]) = CardValue.TWO := by decide
      simp only [calculateEndgameWeight, ha, hr, hm1, hm2, calculateBaseWeight,
        List.length_cons, List.length_nil, CardValue.toNat]
      norm_num
    have hrk : ([[cS .TWO, cH .TWO, cD .TWO], [cS .TWO, cH .TWO]] : List (List Card)).find?
        (fun m => (analyzePlay m).1 = PlayType.ROCKET) = none := by decide
    have hbb : ([[cS .TWO, cH .TWO, cD .TWO], [cS .TWO, cH .TWO]] : List (List Card)).find?
        (fun m => (analyzePlay m).1 = PlayType.BOMB &&
          shouldUseBomb m [cS .TWO, cH .TWO, cD .TWO] true 2 none) = none := by decide
    simp only [chooseEndgameMove, hrk, hbb, List.foldl, w1, w2,
      List.length_cons, List.length_nil]
    norm_num
